import Mathlib

/-!
Verification of the extraction pipeline of `eml_extractor.py`.

The development shallowly embeds the program: paths are component lists
(`PyPath`), the filesystem is an explicit value (`FS`) with the set of
existing directories and the files with their bytes, and each Python
function of the source is translated to a Lean function of the same name.
Filesystem failures (mkdir / write errors) are injected through an
`Oracle`; a raised, uncaught Python exception is modelled by the `exc`
field of an `Outcome` (the disk state reached so far persists, as it does
for a real process).  The MIME parser and the content-type → extension
table are external collaborators of the program and are taken as
parameters.
-/

/-- Exception kinds relevant to the program's `try/except` structure:
`UnicodeDecodeError` (the only kind line 59 catches), `OSError` raised by
`Path.mkdir`, and a catch-all for anything else. -/
inductive ExcKind where
  | unicodeDecodeError
  | osError
  | otherError
deriving DecidableEq, Repr

/-- A filesystem path, as the list of its components.  `pathlib` keeps no
trailing-separator or empty components, so joining the empty string is the
identity (see `PyPath.div`). -/
structure PyPath where
  parts : List String
deriving DecidableEq, Repr

/-- Python `path / s`.  `pathlib` drops empty components while parsing, so
`p / ""` is `p` itself.  The strings joined by the program (sanitized
subject, sanitized filename, the literal `"duplicates"`) never contain a
path separator, so no component splitting is needed. -/
def PyPath.div (p : PyPath) (s : String) : PyPath :=
  if s = "" then p else ⟨p.parts ++ [s]⟩

/-- Python `path.parent`. -/
def PyPath.parent (p : PyPath) : PyPath :=
  ⟨p.parts.dropLast⟩

/-- Python `path.name` (empty for the empty path). -/
def PyPath.name (p : PyPath) : String :=
  p.parts.getLastD ""

/-- Python `path.with_name n`: the last component is replaced. -/
def PyPath.withName (p : PyPath) (n : String) : PyPath :=
  ⟨p.parts.dropLast ++ [n]⟩

/-- Index of the last dot of a name, if any. -/
def lastDotIdx (l : List Char) : Option Nat :=
  ((List.range l.length).filter (fun i => l.getD i ' ' = '.')).getLast?

/-- Python `PurePath(name).suffix`: the part of the name from its last dot
`i` on, provided `0 < i < len - 1`; otherwise empty (`pathlib` gives no
suffix to names such as `.bashrc` or `name.`). -/
def pathSuffixOf (s : String) : String :=
  match lastDotIdx s.data with
  | none => ""
  | some i => if 0 < i ∧ i < s.data.length - 1 then String.mk (s.data.drop i) else ""

/-- Python `PurePath(name).stem`: the name with its suffix removed. -/
def pathStemOf (s : String) : String :=
  match lastDotIdx s.data with
  | none => s
  | some i => if 0 < i ∧ i < s.data.length - 1 then String.mk (s.data.take i) else s

/-- The filesystem: the directories that exist and the regular files with
their contents.  `files` is kept as an association list, newest first. -/
structure FS where
  dirs : List PyPath
  files : List (PyPath × List Nat)
deriving DecidableEq, Repr

/-- All existing paths, directories and files alike. -/
def FS.pathsList (fs : FS) : List PyPath :=
  fs.dirs ++ fs.files.map Prod.fst

/-- Python `path.exists()`: true for a directory or a regular file. -/
def FS.existsPath (fs : FS) (p : PyPath) : Prop :=
  p ∈ fs.pathsList

instance (fs : FS) (p : PyPath) : Decidable (fs.existsPath p) :=
  inferInstanceAs (Decidable (p ∈ fs.pathsList))

/-- Number of existing paths; an upper bound used by the collision
resolver's fuel. -/
def FS.numPaths (fs : FS) : Nat :=
  fs.dirs.length + fs.files.length

/-- The non-empty ancestor paths of `p`, `p` included: what
`mkdir(parents=True)` brings into existence. -/
def ancestorsOf (p : PyPath) : List PyPath :=
  (List.range p.parts.length).map (fun i => ⟨p.parts.take (i + 1)⟩)

/-- Effect of `p.mkdir(parents=True, exist_ok=True)` on the filesystem. -/
def FS.mkdirParents (fs : FS) (p : PyPath) : FS :=
  { fs with dirs := ancestorsOf p ++ fs.dirs }

/-- Effect of `p.mkdir(exist_ok=True)` (no `parents`). -/
def FS.mkdirPlain (fs : FS) (p : PyPath) : FS :=
  { fs with dirs := p :: fs.dirs }

/-- Writing `payload` at `file` (`open('wb')` truncates, so an entry at
the same path is replaced). -/
def FS.writeFile (fs : FS) (file : PyPath) (payload : List Nat) : FS :=
  { fs with files := (file, payload) :: fs.files.filter (fun e => decide (e.1 ≠ file)) }

/-- Failure injection for the filesystem calls the program makes: whether
a given `mkdir` or a given file write raises an `OSError`. -/
structure Oracle where
  mkdirFail : PyPath → Bool
  writeFail : PyPath → Bool

/-- The oracle of a healthy filesystem. -/
def noFailOracle : Oracle :=
  ⟨fun _ => false, fun _ => false⟩

/-- The console lines the program prints, abstracted to events. -/
inductive LogEvent where
  | processing
  | noAttachments
  | attachmentNone
  | attachmentFound (name : String)
  | movingToDuplicates
  | savingTo (p : PyPath)
  | saveError
  | done
deriving DecidableEq, Repr

/-- Result of running a piece of the program: the filesystem reached, the
log produced, and the exception escaping it, if any. -/
structure Outcome where
  fs : FS
  log : List LogEvent
  exc : Option ExcKind
deriving Repr

/-- Open-brace character, kept out of string literals. -/
def lbraceChar : Char := Char.ofNat 0x7B

/-- Close-brace character. -/
def rbraceChar : Char := Char.ofNat 0x7D

/-- Apostrophe character. -/
def aposChar : Char := Char.ofNat 39

/-- The characters of the regex character class at line 98,
`[/\\|\[\]\{\}:<>+=;,?!*"~#$%&@\']`. -/
def illegalChars : List Char :=
  ['/', '\\', '|', '[', ']', lbraceChar, rbraceChar, ':', '<', '>', '+', '=',
   ';', ',', '?', '!', '*', '"', '~', '#', '$', '%', '&', '@', aposChar]

/-- Membership in the rejected character class. -/
def isIllegal (c : Char) : Bool :=
  decide (c ∈ illegalChars)

/-- The characters Python's regex `\s` matches on a `str`: ASCII
whitespace, the file/group/record/unit separators, and the Unicode
space characters. -/
def pySpaceChars : List Char :=
  [' ', '\t', '\n', '\r', '\x0b', '\x0c', '\x1c', '\x1d', '\x1e', '\x1f',
   '\x85', '\xa0', ' ', ' ', ' ', ' ', ' ',
   ' ', ' ', ' ', ' ', ' ', ' ', ' ',
   ' ', ' ', ' ', ' ', '　']

/-- Whether `c` matches `\s`. -/
def isPySpace (c : Char) : Bool :=
  decide (c ∈ pySpaceChars)

/-- Python `str.strip('. ')` on a character list: runs of periods and
spaces are removed from both ends. -/
def stripDotSpace (l : List Char) : List Char :=
  let p : Char → Bool := fun c => c = '.' || c = ' '
  ((l.dropWhile p).reverse.dropWhile p).reverse

/-- Worker of `re.sub(r'\s+', ' ', s)`: every maximal run of whitespace
becomes one space.  The flag records whether the previous character was
whitespace (so the run has already emitted its space). -/
def collapseWsAux : Bool → List Char → List Char
  | _, [] => []
  | prev, c :: rest =>
    if isPySpace c then
      if prev then collapseWsAux true rest
      else ' ' :: collapseWsAux true rest
    else c :: collapseWsAux false rest

/-- Python `re.sub(r'\s+', ' ', s)` as a list transformation. -/
def collapseWs (l : List Char) : List Char :=
  collapseWsAux false l

/-- Lines 94–105: the folder/filename sanitizer.  Empty input maps to the
placeholder; otherwise the rejected characters become underscores, the
ends are stripped of periods and spaces, whitespace runs collapse to one
space, and the result is cut to 100 characters. -/
def sanitize_foldername (name : String) : String :=
  if name = "" then "unnamed"
  else
    let s1 := name.data.map (fun c => if isIllegal c then '_' else c)
    let s2 := stripDotSpace s1
    let s3 := collapseWs s2
    String.mk (s3.take 100)

/-- Digit characters of `n`, most significant first, computed with fuel
(`fuel ≥ n` is enough). -/
def decDigitsAux : Nat → Nat → List Char
  | 0, _ => []
  | fuel + 1, n =>
    if n = 0 then []
    else decDigitsAux fuel (n / 10) ++ [Nat.digitChar (n % 10)]

/-- Python `str(n)` for a natural number. -/
def pyStr (n : Nat) : String :=
  if n = 0 then "0" else String.mk (decDigitsAux n n)

/-- The candidate path the loop of lines 18–22 tries at a given counter:
`filepath.with_name(f"{base}_{counter}{suffix}")`. -/
def candPath (fp : PyPath) (counter : Nat) : PyPath :=
  fp.withName (pathStemOf fp.name ++ "_" ++ pyStr counter ++ pathSuffixOf fp.name)

/-- The `while True` loop of lines 18–22, with fuel: successive candidate
paths are tried until one does not exist. -/
def genUniqueAux (fs : FS) (fp : PyPath) : Nat → Nat → Option PyPath
  | _, 0 => none
  | counter, fuel + 1 =>
    let np := candPath fp counter
    if fs.existsPath np then genUniqueAux fs fp (counter + 1) fuel
    else some np

/-- Lines 9–22, `generate_unique_filename`: the path itself when free,
otherwise the first free numbered candidate.  The fuel `numPaths + 1`
always suffices (`genUniqueAux_some_of_fuel` below), so the `none` arm is
dead. -/
def generate_unique_filename (fs : FS) (filepath : PyPath) : PyPath :=
  if fs.existsPath filepath then
    match genUniqueAux fs filepath 1 (fs.numPaths + 1) with
    | some p => p
    | none => filepath
  else filepath

instance {ε α : Type} [DecidableEq ε] [DecidableEq α] : DecidableEq (Except ε α) := fun x y =>
  match x, y with
  | .ok a, .ok b =>
    if h : a = b then .isTrue (congrArg Except.ok h)
    else .isFalse (fun he => h (Except.ok.inj he))
  | .error a, .error b =>
    if h : a = b then .isTrue (congrArg Except.error h)
    else .isFalse (fun he => h (Except.error.inj he))
  | .ok _, .error _ => .isFalse (fun he => Except.noConfusion he)
  | .error _, .ok _ => .isFalse (fun he => Except.noConfusion he)

/-- One MIME part as the program consumes it: its classification, the
result of `get_filename()` (which may return a value, return `None`, or
raise), its content type, and its decoded payload. -/
structure Attachment where
  isAttachment : Bool
  getFilenameResult : Except ExcKind (Option String)
  contentType : String
  payload : List Nat
deriving DecidableEq, Repr

/-- A parsed message: the `Subject` header when present, and the parts
`iter_attachments()` yields. -/
structure Message where
  subject : Option String
  parts : List Attachment
deriving DecidableEq, Repr

/-- Drops starting at the given pattern; `none` when the list does not
start with it. -/
def dropLit : List Char → List Char → Option (List Char)
  | [], l => some l
  | _, [] => none
  | p :: ps, c :: cs => if p = c then dropLit ps cs else none

/-- Matcher for one occurrence of the regex `;\s*filename\*\d*=` at the
head of the list: returns the remainder after the match. -/
def matchRfc2231 : List Char → Option (List Char)
  | ';' :: rest =>
    let r1 := rest.dropWhile isPySpace
    match dropLit "filename*".data r1 with
    | some r2 =>
      match r2.dropWhile Char.isDigit with
      | '=' :: r4 => some r4
      | _ => none
    | none => none
  | _ => none

/-- Worker of `re.sub(r';\s*filename\*\d*=', '', s)` with fuel
(the list length is enough, every step consumes a character). -/
def removeRfc2231Aux : Nat → List Char → List Char
  | 0, _ => []
  | _ + 1, [] => []
  | fuel + 1, c :: rest =>
    match matchRfc2231 (c :: rest) with
    | some r => removeRfc2231Aux fuel r
    | none => c :: removeRfc2231Aux fuel rest

/-- Line 127: removal of embedded RFC 2231 continuation markers. -/
def removeRfc2231 (s : String) : String :=
  String.mk (removeRfc2231Aux s.data.length s.data)

/-- Line 126: `filename.replace('"', '').replace('\t', '')`. -/
def stripQuotesTabs (s : String) : String :=
  String.mk (s.data.filter (fun c => !(c = '"' || c = '\t')))

/-- Lines 119–141, `get_safe_filename`, with the content-type → extension
table `ge` (the `mimetypes.guess_extension` collaborator) as a parameter.
A part whose `get_filename()` raises is caught by the `except Exception`
and yields `none`. -/
def get_safe_filename (ge : String → Option String) (a : Attachment) : Option String :=
  match a.getFilenameResult with
  | .error _ => none
  | .ok none => none
  | .ok (some filename) =>
    let f1 := stripQuotesTabs filename
    let f2 := removeRfc2231 f1
    let f3 := sanitize_foldername f2
    let f4 :=
      if pathSuffixOf f3 = "" ∧ a.contentType ≠ "" then
        match ge a.contentType with
        | some ext => f3 ++ ext
        | none => f3
      else f3
    some f4

/-- Lines 108–116, `save_attachment`: the parent folders are created and
the payload written; every exception is caught and reported, so the
function never raises. -/
def save_attachment (orc : Oracle) (fs : FS) (file : PyPath) (payload : List Nat) : FS × List LogEvent :=
  if orc.mkdirFail file.parent then (fs, [.saveError])
  else
    let fs1 := fs.mkdirParents file.parent
    if orc.writeFail file then (fs1, [.savingTo file, .saveError])
    else (fs1.writeFile file payload, [.savingTo file])

/-- The attachment loop of lines 42–58.  A falsy filename (`None` or the
empty string) is skipped; an existing target is diverted through the
duplicates folder; `duplicates_path.mkdir` is not inside any `try`, so its
failure raises out of the loop. -/
def processAtts (ge : String → Option String) (orc : Oracle) (bp dup : PyPath) : FS → List Attachment → Outcome
  | fs, [] => ⟨fs, [], none⟩
  | fs, a :: rest =>
    match get_safe_filename ge a with
    | none =>
      let r := processAtts ge orc bp dup fs rest
      ⟨r.fs, .attachmentNone :: r.log, r.exc⟩
    | some fn =>
      if fn = "" then
        let r := processAtts ge orc bp dup fs rest
        ⟨r.fs, .attachmentNone :: r.log, r.exc⟩
      else
        let filepath := bp.div fn
        if fs.existsPath filepath then
          if orc.mkdirFail dup then
            ⟨fs, [.attachmentFound fn, .movingToDuplicates], some .osError⟩
          else
            let fs1 := fs.mkdirPlain dup
            let dfp := generate_unique_filename fs1 (dup.div fn)
            let s := save_attachment orc fs1 dfp a.payload
            let r := processAtts ge orc bp dup s.1 rest
            ⟨r.fs, [.attachmentFound fn, .movingToDuplicates] ++ s.2 ++ r.log, r.exc⟩
        else
          let s := save_attachment orc fs filepath a.payload
          let r := processAtts ge orc bp dup s.1 rest
          ⟨r.fs, [.attachmentFound fn] ++ s.2 ++ r.log, r.exc⟩

/-- Lines 30–58, the per-message body shared by both branches of
`extract_attachments`: folder derivation from the subject, the
no-attachment early return (before any `mkdir`), creation of `basepath`,
and the attachment loop.  `basepath.mkdir` is not inside any
`except`-protected scope for `OSError`, so its failure escapes. -/
def extractFromMessage (ge : String → Option String) (orc : Oracle) (dest : PyPath) (fs : FS) (msg : Message) : Outcome :=
  let basepath := dest.div (sanitize_foldername (msg.subject.getD "No Subject"))
  let duplicates_path := dest.div "duplicates"
  let attachments := msg.parts.filter (fun a => a.isAttachment)
  if attachments.isEmpty then ⟨fs, [.noAttachments], none⟩
  else if orc.mkdirFail basepath then ⟨fs, [], some .osError⟩
  else processAtts ge orc basepath duplicates_path (fs.mkdirParents basepath) attachments

/-- Whether a byte is a UTF-8 continuation byte. -/
def isContByte (b : Nat) : Bool :=
  0x80 ≤ b && b ≤ 0xBF

/-- The Unicode replacement character U+FFFD. -/
def replacementChar : Char := Char.ofNat 0xFFFD

/-- UTF-8 decoding with the `errors='replace'` handler, with fuel (the
byte count is enough: each step consumes at least one byte).  An invalid
lead or continuation byte yields U+FFFD and the scan moves on; the
function is total — the `replace` handler never raises.  (Overlong forms
are not rejected here; that refinement never matters below, only totality
does.) -/
def decodeUtf8Aux : Nat → List Nat → List Char
  | 0, _ => []
  | _ + 1, [] => []
  | fuel + 1, b :: rest =>
    if b < 0x80 then Char.ofNat b :: decodeUtf8Aux fuel rest
    else if 0xC2 ≤ b && b ≤ 0xDF then
      match rest with
      | b2 :: rest2 =>
        if isContByte b2 then
          Char.ofNat ((b - 0xC0) * 64 + (b2 - 0x80)) :: decodeUtf8Aux fuel rest2
        else replacementChar :: decodeUtf8Aux fuel rest
      | [] => replacementChar :: decodeUtf8Aux fuel rest
    else if 0xE0 ≤ b && b ≤ 0xEF then
      match rest with
      | b2 :: b3 :: rest3 =>
        if isContByte b2 && isContByte b3 then
          let cp := (b - 0xE0) * 4096 + (b2 - 0x80) * 64 + (b3 - 0x80)
          if 0xD800 ≤ cp && cp ≤ 0xDFFF then replacementChar :: decodeUtf8Aux fuel rest3
          else Char.ofNat cp :: decodeUtf8Aux fuel rest3
        else replacementChar :: decodeUtf8Aux fuel rest
      | _ => replacementChar :: decodeUtf8Aux fuel rest
    else if 0xF0 ≤ b && b ≤ 0xF4 then
      match rest with
      | b2 :: b3 :: b4 :: rest4 =>
        if isContByte b2 && isContByte b3 && isContByte b4 then
          let cp := (b - 0xF0) * 262144 + (b2 - 0x80) * 4096 + (b3 - 0x80) * 64 + (b4 - 0x80)
          if cp ≤ 0x10FFFF then Char.ofNat cp :: decodeUtf8Aux fuel rest4
          else replacementChar :: decodeUtf8Aux fuel rest4
        else replacementChar :: decodeUtf8Aux fuel rest
      | _ => replacementChar :: decodeUtf8Aux fuel rest
    else replacementChar :: decodeUtf8Aux fuel rest

/-- Reading the message file as line 28 does,
`open(encoding='utf-8', errors='replace')`: a total decode. -/
def decodeUtf8Replace (bytes : List Nat) : String :=
  String.mk (decodeUtf8Aux bytes.length bytes)

/-- Lines 25–91, `extract_attachments` for one input file.  The text-mode
body runs on the decoded source; only a `UnicodeDecodeError` escaping it
is caught, in which case the byte-mode duplicate of the body (lines
61–91) runs — on the filesystem state the first attempt left behind, as
in the real process.  The two parser collaborators `pt` (text mode) and
`pb` (binary mode) are parameters. -/
def extract_attachments (pt : String → Message) (pb : List Nat → Message)
    (ge : String → Option String) (orc : Oracle) (dest : PyPath) (fs : FS) (bytes : List Nat) : Outcome :=
  let o := extractFromMessage ge orc dest fs (pt (decodeUtf8Replace bytes))
  match o.exc with
  | some .unicodeDecodeError =>
    let o2 := extractFromMessage ge orc dest o.fs (pb bytes)
    ⟨o2.fs, .processing :: o.log ++ o2.log, o2.exc⟩
  | _ => ⟨o.fs, .processing :: o.log, o.exc⟩

/-- The loop of `main` (lines 207–209): each file in turn through
`extract_attachments`, then the `Done.` marker — unless an exception
escapes, which kills the process there, the marker never printed. -/
def runBatch (pt : String → Message) (pb : List Nat → Message)
    (ge : String → Option String) (orc : Oracle) (dest : PyPath) : FS → List (List Nat) → Outcome
  | fs, [] => ⟨fs, [.done], none⟩
  | fs, b :: rest =>
    let o := extract_attachments pt pb ge orc dest fs b
    match o.exc with
    | none =>
      let r := runBatch pt pb ge orc dest o.fs rest
      ⟨r.fs, o.log ++ r.log, r.exc⟩
    | some e => ⟨o.fs, o.log, some e⟩

/-- A guess-extension collaborator with an empty table; the concrete runs
below only use attachments that already carry an extension. -/
def geNone : String → Option String := fun _ => none

/-- Destination folder used by the concrete runs: a root named `d`. -/
def destD : PyPath := ⟨["d"]⟩

/-- Initial filesystem of the concrete runs: the destination exists and
is empty. -/
def fsD : FS := ⟨[⟨["d"]⟩], []⟩

/-- First of the two `Invoice` messages of the duplicate-handling
scenario: one attachment `file.pdf` with bytes `[1]`. -/
def msgInvoice1 : Message :=
  ⟨some "Invoice", [⟨true, .ok (some "file.pdf"), "application/pdf", [1]⟩]⟩

/-- Second `Invoice` message: same attachment name, bytes `[2]`. -/
def msgInvoice2 : Message :=
  ⟨some "Invoice", [⟨true, .ok (some "file.pdf"), "application/pdf", [2]⟩]⟩

/-- Filesystem after the two `Invoice` messages are processed in order on
a healthy filesystem. -/
def invoiceRunFS : FS :=
  (extractFromMessage geNone noFailOracle destD
    (extractFromMessage geNone noFailOracle destD fsD msgInvoice1).fs
    msgInvoice2).fs

/-- The character a sanitized character maps to is never in the rejected
class (underscore is not in the class). -/
lemma isIllegal_sanitizeMap (c : Char) :
    isIllegal (if isIllegal c then '_' else c) = false := by
  by_cases hb : isIllegal c = true
  · rw [if_pos hb]; decide
  · rw [if_neg hb]; exact Bool.of_not_eq_true hb

/-- Characters of `stripDotSpace l` come from `l`. -/
lemma mem_of_mem_stripDotSpace {c : Char} {l : List Char} (h : c ∈ stripDotSpace l) : c ∈ l := by
  unfold stripDotSpace at h
  have h1 := (List.mem_reverse).mp h
  have h2 := (List.dropWhile_suffix _).sublist.mem h1
  have h3 := (List.mem_reverse).mp h2
  exact (List.dropWhile_suffix _).sublist.mem h3

/-- Characters of `collapseWsAux b l` come from `l` or are the space the
collapse emits. -/
lemma mem_of_mem_collapseWsAux {c : Char} :
    ∀ (b : Bool) (l : List Char), c ∈ collapseWsAux b l → c ∈ l ∨ c = ' ' := by
  intro b l
  induction l generalizing b with
  | nil => intro h; exact absurd h (by simp [collapseWsAux])
  | cons a rest ih =>
    intro h
    unfold collapseWsAux at h
    by_cases ha : isPySpace a
    · simp only [ha, if_true] at h
      cases b with
      | true =>
        rcases ih true h with h' | h'
        · exact Or.inl (List.mem_cons_of_mem _ h')
        · exact Or.inr h'
      | false =>
        rcases List.mem_cons.mp h with h' | h'
        · exact Or.inr h'
        · rcases ih true h' with h'' | h''
          · exact Or.inl (List.mem_cons_of_mem _ h'')
          · exact Or.inr h''
    · simp only [ha, if_false] at h
      rcases List.mem_cons.mp h with h' | h'
      · exact Or.inl (h' ▸ List.mem_cons_self _ _)
      · rcases ih false h' with h'' | h''
        · exact Or.inl (List.mem_cons_of_mem _ h'')
        · exact Or.inr h''

/-- No character of a sanitized name is in the rejected class. -/
lemma sanitize_no_illegal (x : String) :
    ∀ c ∈ (sanitize_foldername x).data, isIllegal c = false := by
  intro c hc
  unfold sanitize_foldername at hc
  by_cases hx : x = ""
  · simp only [hx, if_true] at hc
    have h7 : c ∈ ['u', 'n', 'n', 'a', 'm', 'e', 'd'] := hc
    fin_cases h7 <;> decide
  · simp only [hx, if_false] at hc
    have h1 : c ∈ collapseWs (stripDotSpace (x.data.map (fun c => if isIllegal c then '_' else c))) :=
      (List.take_prefix _ _).sublist.mem hc
    rcases mem_of_mem_collapseWsAux false _ h1 with h2 | h2
    · have h3 := mem_of_mem_stripDotSpace h2
      rcases List.mem_map.mp h3 with ⟨d, _, hd⟩
      exact hd ▸ isIllegal_sanitizeMap d
    · subst h2; decide

/-- A sanitized name has at most 100 characters. -/
lemma sanitize_length_le (x : String) : (sanitize_foldername x).data.length ≤ 100 := by
  unfold sanitize_foldername
  by_cases hx : x = ""
  · simp only [hx, if_true]; decide
  · simp only [hx, if_false]
    calc (List.take 100 _).length ≤ 100 := by
          rw [List.length_take]; exact min_le_left _ _

/-- The head of a `dropWhile` fails the predicate. -/
lemma head_dropWhile_false (p : Char → Bool) :
    ∀ (l : List Char) (c : Char), (l.dropWhile p).head? = some c → p c = false := by
  intro l
  induction l with
  | nil => intro c h; exact absurd h (by simp)
  | cons a rest ih =>
    intro c h
    by_cases ha : p a
    · rw [List.dropWhile_cons_of_pos ha] at h; exact ih c h
    · rw [List.dropWhile_cons_of_neg ha] at h
      simp only [List.head?_cons, Option.some.injEq] at h
      subst h
      exact Bool.of_not_eq_true ha

/-- `stripDotSpace l` is a prefix of `l.dropWhile`, hence its head, when
present, also heads the `dropWhile`. -/
lemma stripDotSpace_isPrefix (l : List Char) :
    stripDotSpace l <+: l.dropWhile (fun c => c = '.' || c = ' ') := by
  unfold stripDotSpace
  rw [← List.reverse_reverse (List.dropWhile _ l)]
  exact List.reverse_prefix.mpr (List.dropWhile_suffix _)

/-- Heads agree along a non-empty prefix. -/
lemma head?_of_isPrefix {α : Type} {l₁ l₂ : List α} {c : α}
    (h : l₁ <+: l₂) (hc : l₁.head? = some c) : l₂.head? = some c := by
  rcases h with ⟨t, rfl⟩
  cases l₁ with
  | nil => exact absurd hc (by simp)
  | cons a r => simpa using hc

/-- The first character surviving the strip is neither a period nor a
space. -/
lemma stripDotSpace_head {l : List Char} {c : Char}
    (h : (stripDotSpace l).head? = some c) : (c = '.' || c = ' ') = false :=
  head_dropWhile_false _ l c (head?_of_isPrefix (stripDotSpace_isPrefix l) h)

/-- The last character surviving the strip is neither a period nor a
space. -/
lemma stripDotSpace_getLast {l : List Char} {c : Char}
    (h : (stripDotSpace l).getLast? = some c) : (c = '.' || c = ' ') = false := by
  unfold stripDotSpace at h
  rw [List.getLast?_reverse] at h
  exact head_dropWhile_false _ _ c h

/-- Equation: the collapse of the empty list. -/
lemma collapseWsAux_nil (b : Bool) : collapseWsAux b [] = [] := by
  cases b <;> rfl

/-- Equation: a whitespace head inside a run is dropped. -/
lemma collapseWsAux_cons_ws_true {a : Char} {rest : List Char} (ha : isPySpace a = true) :
    collapseWsAux true (a :: rest) = collapseWsAux true rest := by
  simp [collapseWsAux, ha]

/-- Equation: a whitespace head opening a run emits one space. -/
lemma collapseWsAux_cons_ws_false {a : Char} {rest : List Char} (ha : isPySpace a = true) :
    collapseWsAux false (a :: rest) = ' ' :: collapseWsAux true rest := by
  simp [collapseWsAux, ha]

/-- Equation: a non-whitespace head is kept and resets the flag. -/
lemma collapseWsAux_cons_nws {a : Char} {rest : List Char} (b : Bool) (ha : isPySpace a = false) :
    collapseWsAux b (a :: rest) = a :: collapseWsAux false rest := by
  cases b <;> simp [collapseWsAux, ha]

/-- The collapse never lengthens a list. -/
lemma collapseWsAux_length_le : ∀ (b : Bool) (l : List Char),
    (collapseWsAux b l).length ≤ l.length := by
  intro b l
  induction l generalizing b with
  | nil => cases b <;> simp [collapseWsAux]
  | cons a rest ih =>
    unfold collapseWsAux
    by_cases ha : isPySpace a
    · simp only [ha, if_true]
      cases b with
      | true => simpa using Nat.le_succ_of_le (ih true)
      | false => simpa using ih true
    · simpa [ha] using ih false

/-- The strip never lengthens a list. -/
lemma stripDotSpace_length_le (l : List Char) : (stripDotSpace l).length ≤ l.length := by
  unfold stripDotSpace
  calc ((l.dropWhile _).reverse.dropWhile _).reverse.length
      ≤ (l.dropWhile (fun c => c = '.' || c = ' ')).length := by
        rw [List.length_reverse]
        simpa using ((List.dropWhile_suffix _).sublist.length_le).trans
          (le_of_eq (List.length_reverse _))
    _ ≤ l.length := (List.dropWhile_suffix _).sublist.length_le

/-- Head of the collapse: the head of the input, a whitespace head turned
into a space. -/
lemma collapseWsAux_head (l : List Char) :
    (collapseWsAux false l).head? = l.head?.map (fun c => if isPySpace c then ' ' else c) := by
  cases l with
  | nil => rfl
  | cons a rest =>
    unfold collapseWsAux
    by_cases ha : isPySpace a <;> simp [ha]

/-- With the flag set, the collapse starts with a non-whitespace
character when it starts at all. -/
lemma collapseWsAux_true_head : ∀ (l : List Char) (c : Char),
    (collapseWsAux true l).head? = some c → isPySpace c = false := by
  intro l
  induction l with
  | nil => intro c h; exact absurd h (by simp [collapseWsAux])
  | cons a rest ih =>
    intro c h
    by_cases ha : isPySpace a
    · rw [collapseWsAux_cons_ws_true ha] at h; exact ih c h
    · rw [collapseWsAux_cons_nws true (Bool.of_not_eq_true ha)] at h
      simp only [List.head?_cons, Option.some.injEq] at h
      subst h
      exact Bool.of_not_eq_true ha

/-- Whitespace in the collapse output is a plain space. -/
lemma collapseWsAux_allWs : ∀ (b : Bool) (l : List Char) (c : Char),
    c ∈ collapseWsAux b l → isPySpace c = true → c = ' ' := by
  intro b l
  induction l generalizing b with
  | nil =>
    intro c h
    rw [show collapseWsAux b [] = [] from by cases b <;> rfl] at h
    exact absurd h (List.not_mem_nil c)
  | cons a rest ih =>
    intro c h hws
    unfold collapseWsAux at h
    by_cases ha : isPySpace a
    · simp only [ha, if_true] at h
      cases b with
      | true => exact ih true c h hws
      | false =>
        rcases List.mem_cons.mp h with h' | h'
        · exact h'
        · exact ih true c h' hws
    · simp only [ha, if_false] at h
      rcases List.mem_cons.mp h with h' | h'
      · subst h'; exact absurd hws (by simp [ha])
      · exact ih false c h' hws

/-- No two adjacent characters of the collapse output are both
whitespace. -/
lemma collapseWsAux_chain : ∀ (b : Bool) (l : List Char),
    List.Chain' (fun x y => ¬(isPySpace x = true ∧ isPySpace y = true)) (collapseWsAux b l) := by
  intro b l
  induction l generalizing b with
  | nil => rw [show collapseWsAux b [] = [] from by cases b <;> rfl]; exact List.chain'_nil
  | cons a rest ih =>
    unfold collapseWsAux
    by_cases ha : isPySpace a
    · simp only [ha, if_true]
      cases b with
      | true => exact ih true
      | false =>
        refine List.chain'_cons'.mpr ⟨?_, ih true⟩
        intro y hy hcon
        exact absurd (collapseWsAux_true_head rest y hy) (by simp [hcon.2])
    · simp only [ha, if_false]
      refine List.chain'_cons'.mpr ⟨?_, ih false⟩
      intro y hy hcon
      exact absurd hcon.1 (by simp [ha])

/-- A list whose whitespace is all plain spaces, with no two adjacent,
and which does not start with whitespace when the flag is set, is a
fixpoint of the collapse. -/
lemma collapseWsAux_fix : ∀ (l : List Char),
    (∀ c ∈ l, isPySpace c = true → c = ' ') →
    List.Chain' (fun x y => ¬(isPySpace x = true ∧ isPySpace y = true)) l →
    (collapseWsAux false l = l ∧
      ((∀ c, l.head? = some c → isPySpace c = false) → collapseWsAux true l = l)) := by
  intro l
  induction l with
  | nil => exact fun _ _ => ⟨rfl, fun _ => rfl⟩
  | cons a rest ih =>
    intro hall hch
    have hch' := (List.chain'_cons'.mp hch)
    have ihr := ih (fun c hc => hall c (List.mem_cons_of_mem _ hc)) hch'.2
    by_cases ha : isPySpace a
    · have haSp : a = ' ' := hall a (List.mem_cons_self _ _) ha
      have hrest : ∀ c, rest.head? = some c → isPySpace c = false := by
        intro c hc
        by_contra hc'
        exact hch'.1 c hc ⟨ha, Bool.of_not_eq_false hc'⟩
      constructor
      · rw [collapseWsAux_cons_ws_false ha, ihr.2 hrest, haSp]
      · intro hhead
        exact absurd (hhead a rfl) (by simp [ha])
    · constructor
      · rw [collapseWsAux_cons_nws false (Bool.of_not_eq_true ha), ihr.1]
      · intro _
        rw [collapseWsAux_cons_nws true (Bool.of_not_eq_true ha), ihr.1]

/-- Appending a head preserves a known last element. -/
lemma getLast?_cons_of_some {α : Type} {l : List α} {c a : α}
    (h : l.getLast? = some c) : (a :: l).getLast? = some c := by
  cases l with
  | nil => exact absurd h (by simp)
  | cons d t => rw [List.getLast?_cons_cons]; exact h

/-- The collapse preserves a non-whitespace last character. -/
lemma collapseWsAux_last : ∀ (l : List Char) (b : Bool) (c : Char),
    l.getLast? = some c → isPySpace c = false → (collapseWsAux b l).getLast? = some c := by
  intro l
  induction l with
  | nil => intro b c h _; exact absurd h (by simp)
  | cons a rest ih =>
    intro b c h hc
    cases rest with
    | nil =>
      simp only [List.getLast?_singleton, Option.some.injEq] at h
      subst h
      rw [collapseWsAux_cons_nws b hc]
      rfl
    | cons d rest' =>
      rw [List.getLast?_cons_cons] at h
      by_cases ha : isPySpace a
      · cases b with
        | true => rw [collapseWsAux_cons_ws_true ha]; exact ih true c h hc
        | false =>
          rw [collapseWsAux_cons_ws_false ha]
          exact getLast?_cons_of_some (ih true c h hc)
      · rw [collapseWsAux_cons_nws b (Bool.of_not_eq_true ha)]
        exact getLast?_cons_of_some (ih false c h hc)

/-- The non-empty branch of the sanitizer, spelled out. -/
lemma sanitize_eq (x : String) (hx : x ≠ "") :
    sanitize_foldername x =
      String.mk ((collapseWs (stripDotSpace
        (x.data.map (fun c => if isIllegal c then '_' else c)))).take 100) := by
  unfold sanitize_foldername
  rw [if_neg hx]

/-- The sanitizer's character replacement leaves the whitespace-only-
plain-space property intact (rejected characters become underscores,
which are not whitespace). -/
lemma map_repl_ws {x : List Char} (h : ∀ c ∈ x, isPySpace c = true → c = ' ') :
    ∀ c ∈ x.map (fun c => if isIllegal c then '_' else c), isPySpace c = true → c = ' ' := by
  intro c hc hws
  rcases List.mem_map.mp hc with ⟨d, hd, rfl⟩
  by_cases hi : isIllegal d = true
  · rw [if_pos hi] at hws ⊢
    exact absurd hws (by decide)
  · rw [if_neg hi] at hws ⊢
    exact h d hd hws

/-- A sanitized name never starts with a period: the strip removes
leading periods and later stages cannot reintroduce one at the front. -/
lemma sanitize_head_ne_period {x : String} {c : Char}
    (h : (sanitize_foldername x).data.head? = some c) : c ≠ '.' := by
  by_cases hx : x = ""
  · rw [hx] at h
    have hu : (sanitize_foldername "").data.head? = some 'u' := by decide
    rw [hu] at h
    injection h with h
    subst h
    decide
  · rw [sanitize_eq x hx] at h
    have hd : (String.mk ((collapseWs (stripDotSpace
        (x.data.map (fun c => if isIllegal c then '_' else c)))).take 100)).data
        = (collapseWs (stripDotSpace
        (x.data.map (fun c => if isIllegal c then '_' else c)))).take 100 := rfl
    rw [hd, List.head?_take, if_neg (by decide : ¬(100 : Nat) = 0)] at h
    unfold collapseWs at h
    rw [collapseWsAux_head] at h
    cases hh : (stripDotSpace (x.data.map (fun c => if isIllegal c then '_' else c))).head? with
    | none => rw [hh] at h; exact absurd h (by simp)
    | some d =>
      rw [hh] at h
      simp only [Option.map_some', Option.some.injEq] at h
      have hdns := stripDotSpace_head hh
      by_cases hw : isPySpace d
      · rw [if_pos hw] at h; subst h; decide
      · rw [if_neg hw] at h
        subst h
        intro hcon
        rw [hcon] at hdns
        exact absurd hdns (by decide)

/-- Rebuilding a string from its characters gives it back. -/
lemma String.mk_data (s : String) : String.mk s.data = s := rfl

/-- A known last element is a member. -/
lemma mem_of_getLast?_some {α : Type} {l : List α} {a : α}
    (h : l.getLast? = some a) : a ∈ l := by
  rw [List.getLast?_eq_head?_reverse] at h
  exact (List.mem_reverse).mp (List.mem_of_mem_head? h)

/-- When the input's whitespace is all plain spaces and no truncation
happens, the sanitized name has no leading or trailing space and no
trailing period. -/
lemma sanitize_trim_props (x : String)
    (hws : ∀ c ∈ x.data, isPySpace c = true → c = ' ')
    (hlen : x.data.length ≤ 100) :
    (sanitize_foldername x).data.head? ≠ some ' ' ∧
    (sanitize_foldername x).data.getLast? ≠ some ' ' ∧
    (sanitize_foldername x).data.getLast? ≠ some '.' := by
  by_cases hx : x = ""
  · refine ⟨?_, ?_, ?_⟩ <;> rw [hx] <;> decide
  · rw [sanitize_eq x hx]
    set l1 := x.data.map (fun c => if isIllegal c then '_' else c) with hl1
    set l2 := stripDotSpace l1 with hl2
    have hlen3 : (collapseWs l2).length ≤ 100 := by
      calc (collapseWs l2).length ≤ l2.length := collapseWsAux_length_le false l2
        _ ≤ l1.length := stripDotSpace_length_le l1
        _ = x.data.length := List.length_map _ _
        _ ≤ 100 := hlen
    have hdata : (String.mk ((collapseWs l2).take 100)).data = collapseWs l2 := by
      show (collapseWs l2).take 100 = collapseWs l2
      exact List.take_of_length_le hlen3
    rw [hdata]
    have hl2ws : ∀ c ∈ l2, isPySpace c = true → c = ' ' :=
      fun c hc => map_repl_ws hws c (mem_of_mem_stripDotSpace hc)
    refine ⟨?_, ?_, ?_⟩
    · intro h
      unfold collapseWs at h
      rw [collapseWsAux_head] at h
      cases hh : l2.head? with
      | none => rw [hh] at h; exact absurd h (by simp)
      | some d =>
        rw [hh] at h
        simp only [Option.map_some', Option.some.injEq] at h
        have hdns := stripDotSpace_head hh
        by_cases hw : isPySpace d
        · have := hl2ws d (List.mem_of_mem_head? hh) hw
          subst this
          exact absurd hdns (by decide)
        · rw [if_neg hw] at h
          subst h
          exact absurd hdns (by simp)
    · intro h
      cases hh : l2.getLast? with
      | none =>
        have : l2 = [] := List.getLast?_eq_none_iff.mp hh
        rw [this] at h
        exact absurd h (by simp [collapseWs, collapseWsAux_nil])
      | some d =>
        have hdns := stripDotSpace_getLast hh
        have hdws : isPySpace d = false := by
          by_contra hcon
          have := hl2ws d (mem_of_getLast?_some hh) (Bool.of_not_eq_false hcon)
          subst this
          exact absurd hdns (by decide)
        have hlast := collapseWsAux_last l2 false d hh hdws
        rw [show collapseWs l2 = collapseWsAux false l2 from rfl, hlast] at h
        injection h with h
        subst h
        exact absurd hdns (by decide)
    · intro h
      cases hh : l2.getLast? with
      | none =>
        have : l2 = [] := List.getLast?_eq_none_iff.mp hh
        rw [this] at h
        exact absurd h (by simp [collapseWs, collapseWsAux_nil])
      | some d =>
        have hdns := stripDotSpace_getLast hh
        have hdws : isPySpace d = false := by
          by_contra hcon
          have := hl2ws d (mem_of_getLast?_some hh) (Bool.of_not_eq_false hcon)
          subst this
          exact absurd hdns (by decide)
        have hlast := collapseWsAux_last l2 false d hh hdws
        rw [show collapseWs l2 = collapseWsAux false l2 from rfl, hlast] at h
        injection h with h
        subst h
        exact absurd hdns (by decide)

/-- A list whose head fails the predicate is kept whole by `dropWhile`. -/
lemma dropWhile_eq_self_of_head {p : Char → Bool} {l : List Char}
    (h : ∀ c, l.head? = some c → p c = false) : l.dropWhile p = l := by
  cases l with
  | nil => rfl
  | cons a r =>
    have := h a rfl
    rw [List.dropWhile_cons_of_neg (by simp [this])]

/-- A list already clean at both ends is a fixpoint of the strip. -/
lemma stripDotSpace_fix {l : List Char}
    (hh : ∀ c, l.head? = some c → (c = '.' || c = ' ') = false)
    (hl : ∀ c, l.getLast? = some c → (c = '.' || c = ' ') = false) :
    stripDotSpace l = l := by
  show ((l.dropWhile (fun c => c = '.' || c = ' ')).reverse.dropWhile
    (fun c => c = '.' || c = ' ')).reverse = l
  rw [dropWhile_eq_self_of_head hh]
  rw [dropWhile_eq_self_of_head (fun c hc => hl c (by rwa [List.head?_reverse] at hc))]
  exact List.reverse_reverse l

/-- A list without rejected characters is a fixpoint of the character
replacement. -/
lemma map_repl_fix {l : List Char} (h : ∀ c ∈ l, isIllegal c = false) :
    l.map (fun c => if isIllegal c then '_' else c) = l := by
  induction l with
  | nil => rfl
  | cons a r ih =>
    rw [List.map_cons, if_neg (by simp [h a (List.mem_cons_self a r)]),
      ih (fun c hc => h c (List.mem_cons_of_mem _ hc))]

/-- C3, counterexample.  The claim says a sanitized name never has a
trailing space, but `sanitize_foldername "a\t"` is `"a "`: the tab
survives `strip('. ')` (which only strips periods and spaces) and the
whitespace collapse then turns it into a trailing space. -/
theorem C3_counterexample :
    sanitize_foldername "a\t" = "a " ∧
    (sanitize_foldername "a\t").data.getLast? = some ' ' := by
  constructor <;> decide

/-- C3, amended.  For every input the sanitized name contains no rejected
character and has at most 100 characters, and `sanitize("")` and
`sanitize("A/B\C")` are as claimed; the no-leading/trailing-space and
no-trailing-period guarantee, however, only holds when the input's
whitespace characters are all plain spaces (so that the strip, which runs
before the whitespace collapse, sees them) and the input is short enough
not to be truncated (truncation at 100 can re-expose a space or period). -/
theorem C3_sanitize_props : ∀ x : String,
    (∀ c ∈ (sanitize_foldername x).data, isIllegal c = false) ∧
    (sanitize_foldername x).data.length ≤ 100 ∧
    ((∀ c ∈ x.data, isPySpace c = true → c = ' ') → x.data.length ≤ 100 →
      (sanitize_foldername x).data.head? ≠ some ' ' ∧
      (sanitize_foldername x).data.getLast? ≠ some ' ' ∧
      (sanitize_foldername x).data.getLast? ≠ some '.') ∧
    sanitize_foldername "" = "unnamed" ∧
    sanitize_foldername "A/B\\C" = "A_B_C" := by
  intro x
  refine ⟨sanitize_no_illegal x, sanitize_length_le x, ?_, by decide, by decide⟩
  intro hws hlen
  exact sanitize_trim_props x hws hlen

/-- C3, witness: the guarantees instantiated at the subject `"My Doc"`. -/
theorem C3_sanitize_props_witness :
    (sanitize_foldername "My Doc").data.head? ≠ some ' ' ∧
    (sanitize_foldername "My Doc").data.getLast? ≠ some ' ' ∧
    (sanitize_foldername "My Doc").data.getLast? ≠ some '.' :=
  (C3_sanitize_props "My Doc").2.2.1 (by decide) (by decide)

/-- C4, counterexample.  The sanitizer is not idempotent:
`sanitize("a\t") = "a "` but `sanitize("a ") = "a"` — a second pass
strips the trailing space the first pass produced. -/
theorem C4_counterexample :
    sanitize_foldername (sanitize_foldername "a\t") ≠ sanitize_foldername "a\t" := by
  decide

/-- C4, amended.  The sanitizer is idempotent on every input whose image
is non-empty, does not start or end with a space, and does not end with a
period; the counterexample shows the restriction is needed (an image with
a trailing space is re-stripped, and the image `""` of `" "` maps on to
`"unnamed"`). -/
theorem C4_sanitize_idempotent : ∀ x : String,
    sanitize_foldername x ≠ "" →
    (sanitize_foldername x).data.head? ≠ some ' ' →
    (sanitize_foldername x).data.getLast? ≠ some ' ' →
    (sanitize_foldername x).data.getLast? ≠ some '.' →
    sanitize_foldername (sanitize_foldername x) = sanitize_foldername x := by
  intro x hne hh hl hlp
  by_cases hx : x = ""
  · rw [hx]; decide
  · have hdata : (sanitize_foldername x).data =
        (collapseWs (stripDotSpace
          (x.data.map (fun c => if isIllegal c then '_' else c)))).take 100 := by
      rw [sanitize_eq x hx]
    rw [sanitize_eq (sanitize_foldername x) hne]
    have h1 : (sanitize_foldername x).data.map (fun c => if isIllegal c then '_' else c) =
        (sanitize_foldername x).data := map_repl_fix (sanitize_no_illegal x)
    rw [h1]
    have h2 : stripDotSpace (sanitize_foldername x).data = (sanitize_foldername x).data := by
      refine stripDotSpace_fix ?_ ?_
      · intro c hc
        have hcp : c ≠ '.' := sanitize_head_ne_period hc
        have hcs : c ≠ ' ' := by intro hcon; rw [hcon] at hc; exact hh hc
        simp [hcp, hcs]
      · intro c hc
        have hcp : c ≠ '.' := by intro hcon; rw [hcon] at hc; exact hlp hc
        have hcs : c ≠ ' ' := by intro hcon; rw [hcon] at hc; exact hl hc
        simp [hcp, hcs]
    rw [h2]
    have h3 : collapseWs (sanitize_foldername x).data = (sanitize_foldername x).data := by
      have hall : ∀ c ∈ (sanitize_foldername x).data, isPySpace c = true → c = ' ' := by
        intro c hc
        rw [hdata] at hc
        exact collapseWsAux_allWs false _ c ((List.take_prefix _ _).sublist.mem hc)
      have hchain : List.Chain'
          (fun a b => ¬(isPySpace a = true ∧ isPySpace b = true))
          (sanitize_foldername x).data := by
        rw [hdata]
        exact (collapseWsAux_chain false _).take 100
      exact (collapseWsAux_fix _ hall hchain).1
    rw [show collapseWs (sanitize_foldername x).data =
        collapseWsAux false (sanitize_foldername x).data from rfl] at h3
    rw [show collapseWs (sanitize_foldername x).data =
        collapseWsAux false (sanitize_foldername x).data from rfl, h3]
    rw [List.take_of_length_le (sanitize_length_le x)]

/-- C4, witness: idempotence instantiated at the subject `"My Doc"`. -/
theorem C4_sanitize_idempotent_witness :
    sanitize_foldername (sanitize_foldername "My Doc") = sanitize_foldername "My Doc" :=
  C4_sanitize_idempotent "My Doc" (by decide) (by decide) (by decide) (by decide)

/-- Unfolding of the numbering loop at positive fuel. -/
lemma genUniqueAux_succ (fs : FS) (fp : PyPath) (counter fuel : Nat) :
    genUniqueAux fs fp counter (fuel + 1) =
      if fs.existsPath (candPath fp counter) then genUniqueAux fs fp (counter + 1) fuel
      else some (candPath fp counter) := rfl

/-- `decDigitsAux` of zero is empty at any fuel. -/
lemma decDigitsAux_zero : ∀ fuel, decDigitsAux fuel 0 = [] := by
  intro fuel
  cases fuel with
  | zero => rfl
  | succ f => rw [decDigitsAux, if_pos rfl]

/-- Reading the produced digits back as a base-10 numeral recovers the
number (with enough fuel). -/
lemma decDigitsAux_val : ∀ (fuel n : Nat), 0 < n → n ≤ fuel →
    (decDigitsAux fuel n).foldl (fun a c => 10 * a + (c.toNat - 48)) 0 = n := by
  intro fuel
  induction fuel with
  | zero => intro n h1 h2; omega
  | succ fuel ih =>
    intro n h1 h2
    rw [show decDigitsAux (fuel + 1) n
        = decDigitsAux fuel (n / 10) ++ [Nat.digitChar (n % 10)] from by
      rw [decDigitsAux, if_neg (by omega)]]
    rw [List.foldl_append]
    simp only [List.foldl_cons, List.foldl_nil]
    have hd : (Nat.digitChar (n % 10)).toNat - 48 = n % 10 := by
      have h10 : n % 10 < 10 := Nat.mod_lt _ (by omega)
      set m := n % 10 with hm
      interval_cases m <;> decide
    rw [hd]
    by_cases hq : n / 10 = 0
    · rw [hq, decDigitsAux_zero]
      simp only [List.foldl_nil]
      have := Nat.div_add_mod n 10
      omega
    · have hq1 : 0 < n / 10 := Nat.pos_of_ne_zero hq
      have hq2 : n / 10 ≤ fuel := by
        have := Nat.div_lt_self h1 (by omega : 1 < 10)
        omega
      rw [ih (n / 10) hq1 hq2]
      have := Nat.div_add_mod n 10
      omega

/-- Python `str` on naturals is injective. -/
lemma pyStr_injective : ∀ m n : Nat, pyStr m = pyStr n → m = n := by
  have hval : ∀ k : Nat, 0 < k →
      (pyStr k).data.foldl (fun a c => 10 * a + (c.toNat - 48)) 0 = k := by
    intro k hk
    unfold pyStr
    rw [if_neg (by omega)]
    exact decDigitsAux_val k k hk (le_refl k)
  intro m n h
  by_cases hm : m = 0
  · by_cases hn : n = 0
    · omega
    · exfalso
      have hd := congrArg String.data h
      rw [hm] at hd
      have h0 : (pyStr 0).data = ['0'] := rfl
      rw [h0] at hd
      have hv := hval n (Nat.pos_of_ne_zero hn)
      rw [← hd] at hv
      simp only [List.foldl_cons, List.foldl_nil] at hv
      have : ('0'.toNat - 48) = 0 := by decide
      omega
  · by_cases hn : n = 0
    · exfalso
      have hd := congrArg String.data h
      rw [hn] at hd
      have h0 : (pyStr 0).data = ['0'] := rfl
      rw [h0] at hd
      have hv := hval m (Nat.pos_of_ne_zero hm)
      rw [hd] at hv
      simp only [List.foldl_cons, List.foldl_nil] at hv
      have : ('0'.toNat - 48) = 0 := by decide
      omega
    · have hv1 := hval m (Nat.pos_of_ne_zero hm)
      have hv2 := hval n (Nat.pos_of_ne_zero hn)
      rw [h] at hv1
      omega

/-- Distinct counters give distinct candidate paths. -/
lemma candPath_injective (fp : PyPath) : ∀ m n : Nat, candPath fp m = candPath fp n → m = n := by
  intro m n h
  unfold candPath PyPath.withName at h
  injection h with h
  have h2 := List.append_cancel_left h
  injection h2 with h3 _
  have h4 := congrArg String.data h3
  simp only [String.data_append] at h4
  have h5 := List.append_cancel_right h4
  have h6 := List.append_cancel_left h5
  have h7 : pyStr m = pyStr n := by
    have := congrArg String.mk h6
    rwa [String.mk_data, String.mk_data] at this
  exact pyStr_injective m n h7

/-- Pigeonhole for the resolver: among the first `numPaths + 1`
candidates at least one does not exist. -/
lemma exists_free_cand (fs : FS) (fp : PyPath) :
    ∃ n, 1 ≤ n ∧ n ≤ fs.numPaths + 1 ∧ ¬ fs.existsPath (candPath fp n) := by
  by_contra hcon
  push_neg at hcon
  have hmap : ∀ n ∈ Finset.Icc 1 (fs.numPaths + 1), candPath fp n ∈ fs.pathsList.toFinset := by
    intro n hn
    rw [List.mem_toFinset]
    have hn' := Finset.mem_Icc.mp hn
    exact hcon n hn'.1 hn'.2
  have hinj : Set.InjOn (candPath fp) (Finset.Icc 1 (fs.numPaths + 1)) :=
    fun a _ b _ hab => candPath_injective fp a b hab
  have hcard := Finset.card_le_card_of_injOn (candPath fp) hmap hinj
  rw [Nat.card_Icc] at hcard
  have hlen : fs.pathsList.toFinset.card ≤ fs.pathsList.length := List.toFinset_card_le _
  have hplen : fs.pathsList.length = fs.numPaths := by
    unfold FS.pathsList FS.numPaths
    rw [List.length_append, List.length_map]
  omega

/-- The numbering loop returns the first free candidate, provided it lies
within the fuel. -/
lemma genUniqueAux_eq_first_free (fs : FS) (fp : PyPath) :
    ∀ (fuel counter n : Nat), counter ≤ n → n < counter + fuel →
    (∀ m, counter ≤ m → m < n → fs.existsPath (candPath fp m)) →
    ¬ fs.existsPath (candPath fp n) →
    genUniqueAux fs fp counter fuel = some (candPath fp n) := by
  intro fuel
  induction fuel with
  | zero => intro counter n h1 h2 _ _; omega
  | succ fuel ih =>
    intro counter n h1 h2 hall hfree
    rw [genUniqueAux_succ]
    by_cases hex : fs.existsPath (candPath fp counter)
    · rw [if_pos hex]
      have hcn : counter ≠ n := fun he => hfree (he ▸ hex)
      exact ih (counter + 1) n (by omega) (by omega)
        (fun m hm1 hm2 => hall m (by omega) hm2) hfree
    · rw [if_neg hex]
      have hcn : counter = n := by
        by_contra hne
        exact hex (hall counter (le_refl _) (by omega))
      rw [hcn]

/-- `generate_unique_filename` at an existing seed returns the first free
numbered candidate. -/
lemma generate_unique_eq_of_least (fs : FS) (fp : PyPath) (n : Nat)
    (hex : fs.existsPath fp) (h1 : 1 ≤ n)
    (hall : ∀ m, 1 ≤ m → m < n → fs.existsPath (candPath fp m))
    (hfree : ¬ fs.existsPath (candPath fp n)) :
    generate_unique_filename fs fp = candPath fp n := by
  obtain ⟨n0, hn01, hn0b, hn0free⟩ := exists_free_cand fs fp
  have hbound : n ≤ fs.numPaths + 1 := by
    by_contra hgt
    exact hn0free (hall n0 hn01 (by omega))
  unfold generate_unique_filename
  rw [if_pos hex]
  rw [genUniqueAux_eq_first_free fs fp (fs.numPaths + 1) 1 n h1 (by omega) hall hfree]

/-- The resolver's result never exists at call time: the seed is returned
only when free, and the loop stops only at a free candidate (the
pigeonhole bound shows the fuel always reaches one). -/
lemma generate_unique_free (fs : FS) (fp : PyPath) :
    ¬ fs.existsPath (generate_unique_filename fs fp) := by
  by_cases hex : fs.existsPath fp
  · have hexists : ∃ k, ¬ fs.existsPath (candPath fp (k + 1)) := by
      obtain ⟨n0, h1, _, hfree⟩ := exists_free_cand fs fp
      refine ⟨n0 - 1, ?_⟩
      rw [show n0 - 1 + 1 = n0 from by omega]
      exact hfree
    have hkfree : ¬ fs.existsPath (candPath fp (Nat.find hexists + 1)) := Nat.find_spec hexists
    have heq := generate_unique_eq_of_least fs fp (Nat.find hexists + 1) hex (by omega)
      (fun m hm1 hm2 => by
        have hj := Nat.find_min hexists (show m - 1 < Nat.find hexists by omega)
        rw [not_not] at hj
        rwa [show m - 1 + 1 = m from by omega] at hj)
      hkfree
    rw [heq]
    exact hkfree
  · unfold generate_unique_filename
    rw [if_neg hex]
    exact hex

/-- The resolver keeps the folder of its seed: only the final name
component is renumbered. -/
lemma genUniqueAux_dropLast (fs : FS) (fp : PyPath) :
    ∀ (fuel counter : Nat) (p : PyPath), genUniqueAux fs fp counter fuel = some p →
    p.parts.dropLast = fp.parts.dropLast := by
  intro fuel
  induction fuel with
  | zero => intro counter p h; exact absurd h (by simp [genUniqueAux])
  | succ fuel ih =>
    intro counter p h
    rw [genUniqueAux_succ] at h
    by_cases hex : fs.existsPath (candPath fp counter)
    · rw [if_pos hex] at h
      exact ih (counter + 1) p h
    · rw [if_neg hex] at h
      injection h with h
      subst h
      show (fp.parts.dropLast ++ [_]).dropLast = fp.parts.dropLast
      simp

/-- `generate_unique_filename` never leaves the seed's folder. -/
lemma generate_unique_dropLast (fs : FS) (fp : PyPath) :
    (generate_unique_filename fs fp).parts.dropLast = fp.parts.dropLast := by
  unfold generate_unique_filename
  by_cases hex : fs.existsPath fp
  · rw [if_pos hex]
    cases hg : genUniqueAux fs fp 1 (fs.numPaths + 1) with
    | none => rfl
    | some p => exact genUniqueAux_dropLast fs fp _ 1 p hg
  · rw [if_neg hex]

/-- C6.  `generate_unique_filename` returns its argument unchanged when
the path does not exist; when it exists, it returns the first candidate
`stem_1`, `stem_2`, … (extension preserved — `candPath` renames the file
to `stem_n + suffix`) that does not exist at call time. -/
theorem C6_generate_unique_filename : ∀ (fs : FS) (fp : PyPath),
    (¬ fs.existsPath fp → generate_unique_filename fs fp = fp) ∧
    (∀ n, fs.existsPath fp → 1 ≤ n →
      (∀ m, 1 ≤ m → m < n → fs.existsPath (candPath fp m)) →
      ¬ fs.existsPath (candPath fp n) →
      generate_unique_filename fs fp = candPath fp n) := by
  intro fs fp
  constructor
  · intro h
    unfold generate_unique_filename
    rw [if_neg h]
  · intro n hex h1 hall hfree
    exact generate_unique_eq_of_least fs fp n hex h1 hall hfree

/-- C6, witness: with `d/file.pdf` and `d/file_1.pdf` both existing and
`d/file_2.pdf` free, the resolver picks `d/file_2.pdf`. -/
theorem C6_generate_unique_filename_witness :
    generate_unique_filename
      ⟨[], [(⟨["d", "file.pdf"]⟩, [0]), (⟨["d", "file_1.pdf"]⟩, [0])]⟩
      ⟨["d", "file.pdf"]⟩ = ⟨["d", "file_2.pdf"]⟩ := by
  have h := (C6_generate_unique_filename
      ⟨[], [(⟨["d", "file.pdf"]⟩, [0]), (⟨["d", "file_1.pdf"]⟩, [0])]⟩
      ⟨["d", "file.pdf"]⟩).2 2 (by decide) (by decide)
    (fun m hm1 hm2 => by
      have hm : m = 1 := by omega
      subst hm
      decide)
    (by decide)
  rw [h]
  decide

/-- C1, counterexample.  Processing the two `Invoice` messages does not
put the second payload at `destination/Invoice/duplicates/file.pdf`: line
32 computes `duplicates_path = destination / "duplicates"`, not
`basepath / "duplicates"`, so no file is created under the message's own
folder's duplicates subfolder. -/
theorem C1_counterexample :
    (⟨["d", "Invoice", "duplicates", "file.pdf"]⟩, ([2] : List Nat)) ∉ invoiceRunFS.files := by
  decide

/-- C1, amended.  The colliding attachment is written under
`destination/duplicates` — a single folder at the destination root shared
by all messages: the two-`Invoice` run ends with exactly
`destination/Invoice/file.pdf` holding the first payload and
`destination/duplicates/file.pdf` holding the second; moreover the
collision resolver never moves a path out of its folder, so every
relocated duplicate stays under `destination/duplicates`. -/
theorem C1_amended_duplicates_location :
    invoiceRunFS.files =
      [(⟨["d", "duplicates", "file.pdf"]⟩, [2]), (⟨["d", "Invoice", "file.pdf"]⟩, [1])] ∧
    ∀ (fs : FS) (p : PyPath),
      (generate_unique_filename fs p).parts.dropLast = p.parts.dropLast :=
  ⟨by decide, fun fs p => generate_unique_dropLast fs p⟩

/-- C7.  A message with zero classified attachments leaves the filesystem
exactly as it was — line 35 returns before any `mkdir` — and reports that
no attachments were found. -/
theorem C7_no_attachments_no_side_effects :
    ∀ (ge : String → Option String) (orc : Oracle) (dest : PyPath) (fs : FS) (msg : Message),
    msg.parts.filter (fun a => a.isAttachment) = [] →
    extractFromMessage ge orc dest fs msg = ⟨fs, [.noAttachments], none⟩ := by
  intro ge orc dest fs msg h
  unfold extractFromMessage
  rw [h]
  rfl

/-- C7, witness: a message whose only part is inline (not an attachment)
is processed without touching the filesystem. -/
theorem C7_no_attachments_witness :
    extractFromMessage geNone noFailOracle destD fsD
      ⟨some "Hello", [⟨false, .ok (some "pic.png"), "image/png", [9]⟩]⟩
      = ⟨fsD, [.noAttachments], none⟩ :=
  C7_no_attachments_no_side_effects geNone noFailOracle destD fsD _ (by decide)

/-- C8.  A part that declares no filename, or whose filename derivation
raises, yields `none` from `get_safe_filename`; the loop then skips it:
the filesystem and the escaping exception are exactly those of the run
without that part, so nothing is written for it and the siblings are
processed unaffected. -/
theorem C8_missing_filename_skipped :
    ∀ (ge : String → Option String) (a : Attachment),
    (a.getFilenameResult = .ok none ∨ ∃ e, a.getFilenameResult = .error e) →
    get_safe_filename ge a = none ∧
    ∀ (orc : Oracle) (bp dup : PyPath) (fs : FS) (rest : List Attachment),
      (processAtts ge orc bp dup fs (a :: rest)).fs = (processAtts ge orc bp dup fs rest).fs ∧
      (processAtts ge orc bp dup fs (a :: rest)).exc = (processAtts ge orc bp dup fs rest).exc := by
  intro ge a h
  have hnone : get_safe_filename ge a = none := by
    unfold get_safe_filename
    rcases h with h | ⟨e, h⟩ <;> rw [h]
  refine ⟨hnone, ?_⟩
  intro orc bp dup fs rest
  have hstep : processAtts ge orc bp dup fs (a :: rest) =
      ⟨(processAtts ge orc bp dup fs rest).fs,
        .attachmentNone :: (processAtts ge orc bp dup fs rest).log,
        (processAtts ge orc bp dup fs rest).exc⟩ := by
    simp only [processAtts, hnone]
  rw [hstep]
  exact ⟨rfl, rfl⟩

/-- C8, witness: an attachment with `get_filename() = None` writes
nothing on an otherwise empty destination. -/
theorem C8_missing_filename_witness :
    get_safe_filename geNone ⟨true, .ok none, "text/plain", [3]⟩ = none ∧
    (processAtts geNone noFailOracle (destD.div "S") (destD.div "duplicates") fsD
      [⟨true, .ok none, "text/plain", [3]⟩]).fs = fsD := by
  have h := C8_missing_filename_skipped geNone ⟨true, .ok none, "text/plain", [3]⟩ (Or.inl rfl)
  refine ⟨h.1, ?_⟩
  have h2 := (h.2 noFailOracle (destD.div "S") (destD.div "duplicates") fsD []).1
  rw [h2]
  rfl

/-- C10.  Any non-empty subject made only of periods and spaces sanitizes
to the empty string (the strip removes every character), not to the
placeholder — the placeholder is used only for inputs already empty — and
joining the empty folder name leaves the destination itself, so
attachments land directly under the destination. -/
theorem C10_dot_subject_collapses : ∀ (dest : PyPath) (x : String),
    x ≠ "" → (∀ c ∈ x.data, c = '.' ∨ c = ' ') →
    sanitize_foldername x = "" ∧ dest.div (sanitize_foldername x) = dest := by
  intro dest x hx hc
  have hsan : sanitize_foldername x = "" := by
    rw [sanitize_eq x hx]
    have hmap : x.data.map (fun c => if isIllegal c then '_' else c) = x.data := by
      apply map_repl_fix
      intro c hcm
      rcases hc c hcm with h | h <;> subst h <;> decide
    rw [hmap]
    have hstrip : stripDotSpace x.data = [] := by
      show ((x.data.dropWhile (fun c => c = '.' || c = ' ')).reverse.dropWhile
        (fun c => c = '.' || c = ' ')).reverse = []
      have hdw : x.data.dropWhile (fun c => c = '.' || c = ' ') = [] := by
        rw [List.dropWhile_eq_nil_iff]
        intro c hcm
        rcases hc c hcm with h | h <;> subst h <;> decide
      rw [hdw]
      rfl
    rw [hstrip]
    rfl
  refine ⟨hsan, ?_⟩
  rw [hsan]
  unfold PyPath.div
  rw [if_pos rfl]

/-- C10, witness: subject `"."` — the output folder collapses to the
destination root and the attachment is written directly under it. -/
theorem C10_dot_subject_witness :
    sanitize_foldername "." = "" ∧ destD.div (sanitize_foldername ".") = destD ∧
    (extractFromMessage geNone noFailOracle destD fsD
      ⟨some ".", [⟨true, .ok (some "a.pdf"), "application/pdf", [7]⟩]⟩).fs.files
      = [(⟨["d", "a.pdf"]⟩, [7])] := by
  have h := C10_dot_subject_collapses destD "." (by decide) (by decide)
  exact ⟨h.1, h.2, by decide⟩

/-- A path that does not exist is in particular not a file. -/
lemma not_mem_files_map {fs : FS} {p : PyPath} (h : ¬ fs.existsPath p) :
    p ∉ fs.files.map Prod.fst := by
  intro hc
  exact h (List.mem_append.mpr (Or.inr hc))

/-- Composing two filesystem steps that each preserve files and write
only at fresh paths again writes only at paths fresh for the first
state. -/
lemma newfiles_trans {fs1 fs2 fs3 : FS}
    (h12p : ∀ e ∈ fs1.files, e ∈ fs2.files)
    (h12n : ∀ e ∈ fs2.files, e ∈ fs1.files ∨ e.1 ∉ fs1.files.map Prod.fst)
    (h23n : ∀ e ∈ fs3.files, e ∈ fs2.files ∨ e.1 ∉ fs2.files.map Prod.fst) :
    ∀ e ∈ fs3.files, e ∈ fs1.files ∨ e.1 ∉ fs1.files.map Prod.fst := by
  intro e he3
  rcases h23n e he3 with h | h
  · exact h12n e h
  · right
    intro hcon
    rcases List.mem_map.mp hcon with ⟨e1, he1, heq⟩
    exact h (List.mem_map.mpr ⟨e1, h12p e1 he1, heq⟩)

/-- `save_attachment` at a path that is not currently a file keeps every
existing file entry and adds entries only at such fresh paths. -/
lemma save_attachment_rel (orc : Oracle) (fs : FS) (file : PyPath) (payload : List Nat)
    (hfree : file ∉ fs.files.map Prod.fst) :
    (∀ e ∈ fs.files, e ∈ (save_attachment orc fs file payload).1.files) ∧
    (∀ e ∈ (save_attachment orc fs file payload).1.files,
      e ∈ fs.files ∨ e.1 ∉ fs.files.map Prod.fst) := by
  unfold save_attachment
  by_cases h1 : orc.mkdirFail file.parent
  · rw [if_pos h1]
    exact ⟨fun e he => he, fun e he => Or.inl he⟩
  · rw [if_neg h1]
    by_cases h2 : orc.writeFail file
    · rw [if_pos h2]
      exact ⟨fun e he => he, fun e he => Or.inl he⟩
    · rw [if_neg h2]
      constructor
      · intro e he
        show e ∈ (file, payload) :: ((fs.mkdirParents file.parent).files.filter
          (fun e => decide (e.1 ≠ file)))
        refine List.mem_cons.mpr (Or.inr ?_)
        rw [List.mem_filter]
        refine ⟨he, ?_⟩
        simp only [decide_eq_true_eq]
        intro hcon
        exact hfree (List.mem_map.mpr ⟨e, he, hcon⟩)
      · intro e he
        have he' : e ∈ (file, payload) :: ((fs.mkdirParents file.parent).files.filter
          (fun e => decide (e.1 ≠ file))) := he
        rcases List.mem_cons.mp he' with h | h
        · subst h
          exact Or.inr hfree
        · exact Or.inl (List.mem_filter.mp h).1


/-- The attachment loop keeps every existing file entry and writes only
at paths that were not files in the state it started from. -/
lemma processAtts_rel (ge : String → Option String) (orc : Oracle) (bp dup : PyPath) :
    ∀ (atts : List Attachment) (fs : FS),
    (∀ e ∈ fs.files, e ∈ (processAtts ge orc bp dup fs atts).fs.files) ∧
    (∀ e ∈ (processAtts ge orc bp dup fs atts).fs.files,
      e ∈ fs.files ∨ e.1 ∉ fs.files.map Prod.fst) := by
  intro atts
  induction atts with
  | nil => exact fun fs => ⟨fun e he => he, fun e he => Or.inl he⟩
  | cons a rest ih =>
    intro fs
    cases hsf : get_safe_filename ge a with
    | none =>
      simp only [processAtts, hsf]
      exact ih fs
    | some fn =>
      simp only [processAtts, hsf]
      by_cases hfn : fn = ""
      · rw [if_pos hfn]
        exact ih fs
      · rw [if_neg hfn]
        by_cases hex : fs.existsPath (bp.div fn)
        · rw [if_pos hex]
          by_cases hmk : orc.mkdirFail dup
          · rw [if_pos hmk]
            exact ⟨fun e he => he, fun e he => Or.inl he⟩
          · rw [if_neg hmk]
            have hfree : generate_unique_filename (fs.mkdirPlain dup) (dup.div fn)
                ∉ (fs.mkdirPlain dup).files.map Prod.fst :=
              not_mem_files_map (generate_unique_free (fs.mkdirPlain dup) (dup.div fn))
            have hs := save_attachment_rel orc (fs.mkdirPlain dup)
              (generate_unique_filename (fs.mkdirPlain dup) (dup.div fn)) a.payload hfree
            exact ⟨fun e he => (ih _).1 e (hs.1 e he),
              newfiles_trans hs.1 hs.2 (ih _).2⟩
        · rw [if_neg hex]
          have hfree : bp.div fn ∉ fs.files.map Prod.fst := not_mem_files_map hex
          have hs := save_attachment_rel orc fs (bp.div fn) a.payload hfree
          exact ⟨fun e he => (ih _).1 e (hs.1 e he),
            newfiles_trans hs.1 hs.2 (ih _).2⟩

/-- One message keeps every existing file entry and writes only at paths
that were not files when processing of the message began. -/
lemma extractFromMessage_rel (ge : String → Option String) (orc : Oracle)
    (dest : PyPath) (fs : FS) (msg : Message) :
    (∀ e ∈ fs.files, e ∈ (extractFromMessage ge orc dest fs msg).fs.files) ∧
    (∀ e ∈ (extractFromMessage ge orc dest fs msg).fs.files,
      e ∈ fs.files ∨ e.1 ∉ fs.files.map Prod.fst) := by
  unfold extractFromMessage
  by_cases hempty : (msg.parts.filter (fun a => a.isAttachment)).isEmpty
  · rw [if_pos hempty]
    exact ⟨fun e he => he, fun e he => Or.inl he⟩
  · rw [if_neg hempty]
    by_cases hmk : orc.mkdirFail (dest.div (sanitize_foldername (msg.subject.getD "No Subject")))
    · rw [if_pos hmk]
      exact ⟨fun e he => he, fun e he => Or.inl he⟩
    · rw [if_neg hmk]
      exact processAtts_rel ge orc
        (dest.div (sanitize_foldername (msg.subject.getD "No Subject")))
        (dest.div "duplicates")
        (msg.parts.filter (fun a => a.isAttachment))
        (fs.mkdirParents (dest.div (sanitize_foldername (msg.subject.getD "No Subject"))))

/-- One input file keeps every existing file entry and writes only at
paths that were not files when the file's processing began. -/
lemma extract_attachments_rel (pt : String → Message) (pb : List Nat → Message)
    (ge : String → Option String) (orc : Oracle) (dest : PyPath) (fs : FS) (bytes : List Nat) :
    (∀ e ∈ fs.files, e ∈ (extract_attachments pt pb ge orc dest fs bytes).fs.files) ∧
    (∀ e ∈ (extract_attachments pt pb ge orc dest fs bytes).fs.files,
      e ∈ fs.files ∨ e.1 ∉ fs.files.map Prod.fst) := by
  simp only [extract_attachments]
  have h1 := extractFromMessage_rel ge orc dest fs (pt (decodeUtf8Replace bytes))
  cases hexc : (extractFromMessage ge orc dest fs (pt (decodeUtf8Replace bytes))).exc with
  | none => exact h1
  | some e =>
    cases e with
    | unicodeDecodeError =>
      have h2 := extractFromMessage_rel ge orc dest
        (extractFromMessage ge orc dest fs (pt (decodeUtf8Replace bytes))).fs (pb bytes)
      exact ⟨fun e he => h2.1 e (h1.1 e he), newfiles_trans h1.1 h1.2 h2.2⟩
    | osError => exact h1
    | otherError => exact h1

/-- C2.  Across a whole sequential run over any list of input files, no
write ever overwrites a file another attachment wrote: every file entry
present before the run is still present, bytes intact, after it, and
every file entry of the final state is either an original one or sits at
a path that held no file before the run. -/
theorem C2_run_no_overwrite : ∀ (pt : String → Message) (pb : List Nat → Message)
    (ge : String → Option String) (orc : Oracle) (dest : PyPath)
    (fs : FS) (files : List (List Nat)) (p : PyPath) (c : List Nat),
    ((p, c) ∈ fs.files → (p, c) ∈ (runBatch pt pb ge orc dest fs files).fs.files) ∧
    ((p, c) ∈ (runBatch pt pb ge orc dest fs files).fs.files →
      (p, c) ∈ fs.files ∨ p ∉ fs.files.map Prod.fst) := by
  intro pt pb ge orc dest fs files
  suffices h : ∀ (files : List (List Nat)) (fs : FS),
      (∀ e ∈ fs.files, e ∈ (runBatch pt pb ge orc dest fs files).fs.files) ∧
      (∀ e ∈ (runBatch pt pb ge orc dest fs files).fs.files,
        e ∈ fs.files ∨ e.1 ∉ fs.files.map Prod.fst) by
    intro p c
    exact ⟨fun hm => (h files fs).1 (p, c) hm, fun hm => (h files fs).2 (p, c) hm⟩
  intro files
  induction files with
  | nil => exact fun fs => ⟨fun e he => he, fun e he => Or.inl he⟩
  | cons b rest ih =>
    intro fs
    simp only [runBatch]
    have h1 := extract_attachments_rel pt pb ge orc dest fs b
    cases hexc : (extract_attachments pt pb ge orc dest fs b).exc with
    | none =>
      have h2 := ih (extract_attachments pt pb ge orc dest fs b).fs
      exact ⟨fun e he => h2.1 e (h1.1 e he), newfiles_trans h1.1 h1.2 h2.2⟩
    | some e => exact h1

/-- C2, witness: a pre-existing file entry survives a one-file run on top
of it. -/
theorem C2_run_no_overwrite_witness :
    (⟨["d", "x.txt"]⟩, ([5] : List Nat)) ∈
      (runBatch (fun _ => msgInvoice1) (fun _ => msgInvoice1) geNone noFailOracle destD
        ⟨[⟨["d"]⟩], [(⟨["d", "x.txt"]⟩, [5])]⟩ [[49]]).fs.files :=
  (C2_run_no_overwrite (fun _ => msgInvoice1) (fun _ => msgInvoice1) geNone noFailOracle destD
    ⟨[⟨["d"]⟩], [(⟨["d", "x.txt"]⟩, [5])]⟩ [[49]] ⟨["d", "x.txt"]⟩ [5]).1 (by decide)

/-- The only exception the attachment loop can raise is the `OSError` of
the duplicates-folder `mkdir`; in particular never a
`UnicodeDecodeError`. -/
lemma processAtts_exc (ge : String → Option String) (orc : Oracle) (bp dup : PyPath) :
    ∀ (atts : List Attachment) (fs : FS),
    (processAtts ge orc bp dup fs atts).exc = none ∨
    (processAtts ge orc bp dup fs atts).exc = some .osError := by
  intro atts
  induction atts with
  | nil => exact fun fs => Or.inl rfl
  | cons a rest ih =>
    intro fs
    cases hsf : get_safe_filename ge a with
    | none =>
      simp only [processAtts, hsf]
      exact ih fs
    | some fn =>
      simp only [processAtts, hsf]
      by_cases hfn : fn = ""
      · rw [if_pos hfn]
        exact ih fs
      · rw [if_neg hfn]
        by_cases hex : fs.existsPath (bp.div fn)
        · rw [if_pos hex]
          by_cases hmk : orc.mkdirFail dup
          · rw [if_pos hmk]
            exact Or.inr rfl
          · rw [if_neg hmk]
            exact ih _
        · rw [if_neg hex]
          exact ih _

/-- A message never raises a `UnicodeDecodeError`: the only raise sites
are the two `mkdir` calls, which raise `OSError`. -/
lemma extractFromMessage_exc (ge : String → Option String) (orc : Oracle)
    (dest : PyPath) (fs : FS) (msg : Message) :
    (extractFromMessage ge orc dest fs msg).exc = none ∨
    (extractFromMessage ge orc dest fs msg).exc = some .osError := by
  unfold extractFromMessage
  by_cases hempty : (msg.parts.filter (fun a => a.isAttachment)).isEmpty
  · rw [if_pos hempty]
    exact Or.inl rfl
  · rw [if_neg hempty]
    by_cases hmk : orc.mkdirFail (dest.div (sanitize_foldername (msg.subject.getD "No Subject")))
    · rw [if_pos hmk]
      exact Or.inr rfl
    · rw [if_neg hmk]
      exact processAtts_exc ge orc _ _ _ _

/-- `extract_attachments` always reduces to its text-mode body: the read
is a total decode and the body never raises `UnicodeDecodeError`. -/
lemma extract_attachments_text_eq (pt : String → Message) (pb : List Nat → Message)
    (ge : String → Option String) (orc : Oracle) (dest : PyPath) (fs : FS) (bytes : List Nat) :
    extract_attachments pt pb ge orc dest fs bytes =
      ⟨(extractFromMessage ge orc dest fs (pt (decodeUtf8Replace bytes))).fs,
        .processing :: (extractFromMessage ge orc dest fs (pt (decodeUtf8Replace bytes))).log,
        (extractFromMessage ge orc dest fs (pt (decodeUtf8Replace bytes))).exc⟩ := by
  simp only [extract_attachments]
  rcases extractFromMessage_exc ge orc dest fs (pt (decodeUtf8Replace bytes)) with h | h <;>
    rw [h]

/-- C9.  The byte-oriented retry branch (lines 59–91) is unreachable: the
file is read with `errors='replace'`, a total decode that cannot raise
`UnicodeDecodeError`, and nothing else inside the `try` raises one (the
`mkdir` calls raise `OSError`, and `save_attachment` and
`get_safe_filename` catch their own exceptions) — so for every input
file, every oracle and every parser pair, `extract_attachments` behaves
exactly as its text-mode body alone. -/
theorem C9_byte_branch_unreachable : ∀ (pt : String → Message) (pb : List Nat → Message)
    (ge : String → Option String) (orc : Oracle) (dest : PyPath) (fs : FS) (bytes : List Nat),
    extract_attachments pt pb ge orc dest fs bytes =
      ⟨(extractFromMessage ge orc dest fs (pt (decodeUtf8Replace bytes))).fs,
        .processing :: (extractFromMessage ge orc dest fs (pt (decodeUtf8Replace bytes))).log,
        (extractFromMessage ge orc dest fs (pt (decodeUtf8Replace bytes))).exc⟩ :=
  fun pt pb ge orc dest fs bytes => extract_attachments_text_eq pt pb ge orc dest fs bytes

/-- With no folder-creation failures, the attachment loop raises
nothing. -/
lemma processAtts_exc_none (ge : String → Option String) (orc : Oracle) (bp dup : PyPath)
    (hmk : ∀ p, orc.mkdirFail p = false) :
    ∀ (atts : List Attachment) (fs : FS), (processAtts ge orc bp dup fs atts).exc = none := by
  intro atts
  induction atts with
  | nil => exact fun fs => rfl
  | cons a rest ih =>
    intro fs
    cases hsf : get_safe_filename ge a with
    | none =>
      simp only [processAtts, hsf]
      exact ih fs
    | some fn =>
      simp only [processAtts, hsf]
      by_cases hfn : fn = ""
      · rw [if_pos hfn]
        exact ih fs
      · rw [if_neg hfn]
        by_cases hex : fs.existsPath (bp.div fn)
        · rw [if_pos hex, if_neg (by rw [hmk dup]; exact Bool.false_ne_true)]
          exact ih _
        · rw [if_neg hex]
          exact ih _

/-- With no folder-creation failures, a message raises nothing. -/
lemma extractFromMessage_exc_none (ge : String → Option String) (orc : Oracle)
    (dest : PyPath) (fs : FS) (msg : Message)
    (hmk : ∀ p, orc.mkdirFail p = false) :
    (extractFromMessage ge orc dest fs msg).exc = none := by
  unfold extractFromMessage
  by_cases hempty : (msg.parts.filter (fun a => a.isAttachment)).isEmpty
  · rw [if_pos hempty]
  · rw [if_neg hempty,
      if_neg (by rw [hmk (dest.div (sanitize_foldername (msg.subject.getD "No Subject")))]
                 exact Bool.false_ne_true)]
    exact processAtts_exc_none ge orc _ _ hmk _ _

/-- C5, counterexample.  A folder-creation failure is not caught anywhere
(only `UnicodeDecodeError` is), so it aborts the whole batch: with
`mkdir` failing on the second message's output folder `d/2`, the second
and third files are lost, the completion marker is never printed, yet the
claim says every folder-creation failure is converted to a report and the
third file is still processed. -/
theorem C5_counterexample :
    (runBatch
        (fun s => ⟨some s, [⟨true, .ok (some (s ++ ".txt")), "text/plain", [65]⟩]⟩)
        (fun _ => ⟨none, []⟩)
        geNone ⟨fun p => decide (p = ⟨["d", "2"]⟩), fun _ => false⟩ destD fsD
        [[49], [50], [51]]).exc = some .osError ∧
    .done ∉ (runBatch
        (fun s => ⟨some s, [⟨true, .ok (some (s ++ ".txt")), "text/plain", [65]⟩]⟩)
        (fun _ => ⟨none, []⟩)
        geNone ⟨fun p => decide (p = ⟨["d", "2"]⟩), fun _ => false⟩ destD fsD
        [[49], [50], [51]]).log ∧
    (⟨["d", "3", "3.txt"]⟩, ([65] : List Nat)) ∉ (runBatch
        (fun s => ⟨some s, [⟨true, .ok (some (s ++ ".txt")), "text/plain", [65]⟩]⟩)
        (fun _ => ⟨none, []⟩)
        geNone ⟨fun p => decide (p = ⟨["d", "2"]⟩), fun _ => false⟩ destD fsD
        [[49], [50], [51]]).fs.files ∧
    (⟨["d", "1", "1.txt"]⟩, ([65] : List Nat)) ∈ (runBatch
        (fun s => ⟨some s, [⟨true, .ok (some (s ++ ".txt")), "text/plain", [65]⟩]⟩)
        (fun _ => ⟨none, []⟩)
        geNone ⟨fun p => decide (p = ⟨["d", "2"]⟩), fun _ => false⟩ destD fsD
        [[49], [50], [51]]).fs.files := by
  decide

/-- C5, amended.  Filename-derivation failures and payload-write failures
are caught at the smallest enclosing scope and never abort the batch, and
a text-decoding problem is retried in byte mode; but a folder-creation
failure propagates and kills the run.  When no `mkdir` fails, the batch
always runs to completion — for any parsers, any messages, any write
failures — ending with the completion marker. -/
theorem C5_batch_completes_without_mkdir_failures :
    ∀ (pt : String → Message) (pb : List Nat → Message) (ge : String → Option String)
      (orc : Oracle) (dest : PyPath) (fs : FS) (files : List (List Nat)),
    (∀ p, orc.mkdirFail p = false) →
    (runBatch pt pb ge orc dest fs files).exc = none ∧
    .done ∈ (runBatch pt pb ge orc dest fs files).log := by
  intro pt pb ge orc dest fs files hmk
  induction files generalizing fs with
  | nil => exact ⟨rfl, List.mem_singleton.mpr rfl⟩
  | cons b rest ih =>
    simp only [runBatch]
    have hexc : (extract_attachments pt pb ge orc dest fs b).exc = none := by
      rw [extract_attachments_text_eq]
      exact extractFromMessage_exc_none ge orc dest fs _ hmk
    rw [hexc]
    have ihr := ih (extract_attachments pt pb ge orc dest fs b).fs
    exact ⟨ihr.1, List.mem_append.mpr (Or.inr ihr.2)⟩

/-- C5, witness: a healthy one-file batch finishes with no exception and
the completion marker. -/
theorem C5_batch_completes_witness :
    (runBatch (fun _ => msgInvoice1) (fun _ => msgInvoice1) geNone noFailOracle destD fsD
      [[49]]).exc = none ∧
    .done ∈ (runBatch (fun _ => msgInvoice1) (fun _ => msgInvoice1) geNone noFailOracle destD fsD
      [[49]]).log :=
  C5_batch_completes_without_mkdir_failures (fun _ => msgInvoice1) (fun _ => msgInvoice1)
    geNone noFailOracle destD fsD [[49]] (fun _ => rfl)
